import Mathlib

/-!
# Verification of the fplint model reconciler and check engine

This file gives a shallow embedding, in Lean 4, of the core algorithms of the
fplint topology linter:

* the reconciliation merge `merge_object_model` of
  `src/fplint/model/patcher.py` (duplicated verbatim in `src/fplint/factory.py`),
* the port-array expansion of `mega_component_loader` / `__component_loader`,
* the `PortCollision` check of `src/fplint/checks/collisions.py`,
* the per-pair condition chain of `HubLinter.run` in `src/fplint/checks/hub.py`,
* the two check-running loops `CheckBase.run_all` (`src/fplint/check.py`) and
  `BaseCheck.run_all` (`src/fplint/checks/check.py`), and
* the two configuration-filter homogenizers (`src/fplint/config.py` and
  `src/fplint/load.py`).

Python attribute dictionaries are modelled as association lists from attribute
names to a small universe `Value` of Python values (None, strings, integers,
lists of strings); a raised Python exception is an `Except`/`Option` error
value.  Python's `str.endswith` and `str.lower` are modelled by `pySuffix` and
`pyLower` over the character lists of the strings.
-/

namespace Fplint

/-- Python `s.endswith(post)`. -/
def pySuffix (s post : String) : Bool := post.data.isSuffixOf s.data

/-- Python `s.lower()` (ASCII case folding, as used by the merge and checks). -/
def pyLower (s : String) : String := ⟨s.data.map Char.toLower⟩

/-- A Python attribute value as seen by the reconciler merge: `None`, a string,
an integer, or a (flat) list.  These are the value shapes that occur on the
fprime model objects the merge walks over. -/
inductive Value where
  | vnone : Value
  | vstr (s : String) : Value
  | vint (n : Int) : Value
  | vlist (l : List String) : Value
deriving DecidableEq, Repr

/-- Errors escaping `merge_object_model`: the deliberate
`InconsistencyException`, or the `TypeError`/`AttributeError` raised while
evaluating `amalgam_value.endswith(trait_value)` on non-strings. -/
inductive MergeErr where
  | inconsistent : MergeErr
  | typeCrash : MergeErr
deriving DecidableEq, Repr

namespace Patcher

/-- Python truthiness test used by the merge
(`amalgam_value is None or amalgam_value == "" or len(...) == 0 or not amalgam_value`). -/
def falsy : Value → Bool
  | .vnone => true
  | .vstr s => s = ""
  | .vint n => n = 0
  | .vlist l => l = []

/-- The merge's string tolerance test:
`isinstance(a, str) and isinstance(t, str) and a.lower() == t.lower()`. -/
def caseEq : Value → Value → Bool
  | .vstr a, .vstr t => pyLower a = pyLower t
  | _, _ => false

/-- Both values are strings (guards `str.endswith`). -/
def bothStr : Value → Value → Bool
  | .vstr _, .vstr _ => true
  | _, _ => false

/-- `amalgam_value.endswith(trait_value)` when both values are strings. -/
def strEndsWithV : Value → Value → Bool
  | .vstr a, .vstr t => pySuffix a t
  | _, _ => false

/-- Tail of the merge's per-attribute branch chain: the `_Component__modeler`
`continue`, the inconsistency test, and the final `setattr`. -/
def mergeTail (attr : String) (amalgam_value trait_value : Value) : Except MergeErr Value :=
  if attr = "_Component__modeler" then .ok amalgam_value
  else if trait_value ≠ amalgam_value then .error .inconsistent
  else .ok trait_value

/-- One iteration of the `for attr in set(...)` loop of `merge_object_model`
for a non-port-collection attribute, returning the resulting attribute value of
the amalgam (or the raised exception).  Branches in source order:
`trait_value is None` keeps the amalgam value; the `__xml_filename` test, the
case-insensitive string test and the falsy-amalgam test fall through to
`setattr(amalgam, attr, trait_value)`; the `_Port__ptype` suffix test and the
`_Component__modeler` test `continue`, keeping the amalgam value. -/
def mergeAttr (attr : String) (amalgam_value trait_value : Value) : Except MergeErr Value :=
  if trait_value = .vnone then .ok amalgam_value
  else if pySuffix attr "__xml_filename" then .ok trait_value
  else if caseEq amalgam_value trait_value then .ok trait_value
  else if falsy amalgam_value then .ok trait_value
  else if attr = "_Port__ptype" then
    match amalgam_value, trait_value with
    | .vstr a, .vstr t =>
        if pySuffix a t then .ok (Value.vstr a)
        else mergeTail attr (.vstr a) (.vstr t)
    | _, _ => .error .typeCrash
  else mergeTail attr amalgam_value trait_value

/-- A Python object's `__dict__`, as an association list. -/
abbrev AttrMap := List (String × Value)

/-- Attribute names of an object (`obj.__dict__.keys()`). -/
def keysOf (o : AttrMap) : List String := o.map Prod.fst

/-- `getattr(obj, attr, None)`. -/
def lookupA (o : AttrMap) (k : String) : Value :=
  match o.find? (fun kv => kv.1 == k) with
  | some kv => kv.2
  | none => .vnone

/-- The attribute set iterated by the merge,
`set(list(amalgam.__dict__.keys()) + list(traits.__dict__.keys()))`,
ordered with the amalgam's keys first. -/
def mergeKeys (amalgam traits : AttrMap) : List String :=
  keysOf amalgam ++ (keysOf traits).filter (fun k => !(keysOf amalgam).contains k)

/-- Folds `mergeAttr` over a list of attribute names, collecting the merged
object; the first raised exception aborts the merge. -/
def mergeFlatAux (amalgam traits : AttrMap) : List String → Except MergeErr AttrMap
  | [] => .ok []
  | k :: ks => do
      let v ← mergeAttr k (lookupA amalgam k) (lookupA traits k)
      let rest ← mergeFlatAux amalgam traits ks
      pure ((k, v) :: rest)

/-- `merge_object_model` restricted to objects without a
`_Component__port_obj_list` attribute (i.e. `Port` objects, or the non-port
attributes of a `Component`): every attribute of either operand is merged by
`mergeAttr`. -/
def mergeFlat (amalgam traits : AttrMap) : Except MergeErr AttrMap :=
  mergeFlatAux amalgam traits (mergeKeys amalgam traits)

/-- The condition under which `merge_object_model` raises
`InconsistencyException` at attribute `attr`: the trait value is set, no
fall-through or skip branch applies, and the two values are unequal. -/
def ErrCond (attr : String) (a t : Value) : Prop :=
  t ≠ .vnone ∧ pySuffix attr "__xml_filename" = false ∧ caseEq a t = false ∧
  falsy a = false ∧
  (attr = "_Port__ptype" → (bothStr a t = true ∧ strEndsWithV a t = false)) ∧
  attr ≠ "_Component__modeler" ∧ t ≠ a

instance (attr : String) (a t : Value) : Decidable (ErrCond attr a t) := by
  unfold ErrCond; infer_instance

/-- The condition under which the merge crashes with a `TypeError` /
`AttributeError` while evaluating `amalgam_value.endswith(trait_value)` on
values that are not both strings. -/
def CrashCond (attr : String) (a t : Value) : Prop :=
  attr = "_Port__ptype" ∧ t ≠ .vnone ∧ pySuffix attr "__xml_filename" = false ∧
  caseEq a t = false ∧ falsy a = false ∧ bothStr a t = false

instance (attr : String) (a t : Value) : Decidable (CrashCond attr a t) := by
  unfold CrashCond; infer_instance

theorem mergeAttr_none_trait (attr : String) (a : Value) :
    mergeAttr attr a .vnone = .ok a := rfl

theorem mergeAttr_falsy (attr : String) (a t : Value)
    (hf : falsy a = true) (ht : t ≠ .vnone) :
    mergeAttr attr a t = .ok t := by
  unfold mergeAttr
  rw [if_neg ht]
  by_cases h2 : pySuffix attr "__xml_filename" = true
  · rw [if_pos h2]
  · rw [if_neg h2]
    by_cases h3 : caseEq a t = true
    · rw [if_pos h3]
    · rw [if_neg h3, if_pos hf]

theorem mergeAttr_caseEq (attr : String) (a t : Value)
    (hc : caseEq a t = true) (ht : t ≠ .vnone) :
    mergeAttr attr a t = .ok t := by
  unfold mergeAttr
  rw [if_neg ht]
  by_cases h2 : pySuffix attr "__xml_filename" = true
  · rw [if_pos h2]
  · rw [if_neg h2, if_pos hc]

theorem mergeAttr_error_inconsistent_iff (attr : String) (a t : Value) :
    mergeAttr attr a t = .error .inconsistent ↔ ErrCond attr a t := by
  unfold mergeAttr
  by_cases h1 : t = Value.vnone
  · rw [if_pos h1]
    exact iff_of_false (fun h => Except.noConfusion h) (fun hc => hc.1 h1)
  · rw [if_neg h1]
    by_cases h2 : pySuffix attr "__xml_filename" = true
    · rw [if_pos h2]
      exact iff_of_false (fun h => Except.noConfusion h)
        (fun hc => by rw [hc.2.1] at h2; exact Bool.noConfusion h2)
    · rw [if_neg h2]
      replace h2 := Bool.eq_false_iff.mpr h2
      by_cases h3 : caseEq a t = true
      · rw [if_pos h3]
        exact iff_of_false (fun h => Except.noConfusion h)
          (fun hc => by rw [hc.2.2.1] at h3; exact Bool.noConfusion h3)
      · rw [if_neg h3]
        replace h3 := Bool.eq_false_iff.mpr h3
        by_cases h4 : falsy a = true
        · rw [if_pos h4]
          exact iff_of_false (fun h => Except.noConfusion h)
            (fun hc => by rw [hc.2.2.2.1] at h4; exact Bool.noConfusion h4)
        · rw [if_neg h4]
          replace h4 := Bool.eq_false_iff.mpr h4
          by_cases h5 : attr = "_Port__ptype"
          · rw [if_pos h5]
            match a, t with
            | .vstr x, .vstr y =>
                show (if pySuffix x y = true then Except.ok (Value.vstr x)
                      else mergeTail attr (Value.vstr x) (Value.vstr y)) =
                    Except.error MergeErr.inconsistent ↔
                    ErrCond attr (Value.vstr x) (Value.vstr y)
                by_cases h6 : pySuffix x y = true
                · rw [if_pos h6]
                  refine iff_of_false (fun h => Except.noConfusion h) (fun hc => ?_)
                  have hse := (hc.2.2.2.2.1 h5).2
                  rw [show strEndsWithV (Value.vstr x) (Value.vstr y) = pySuffix x y from rfl] at hse
                  rw [hse] at h6
                  exact Bool.noConfusion h6
                · rw [if_neg h6]
                  replace h6 := Bool.eq_false_iff.mpr h6
                  unfold mergeTail
                  rw [if_neg (h5 ▸ (by decide : ("_Port__ptype" : String) ≠ "_Component__modeler"))]
                  by_cases h7 : Value.vstr y = Value.vstr x
                  · rw [if_neg (not_not_intro h7)]
                    exact iff_of_false (fun h => Except.noConfusion h)
                      (fun hc => hc.2.2.2.2.2.2 h7)
                  · rw [if_pos h7]
                    refine iff_of_true rfl ⟨h1, h2, h3, h4, fun _ => ⟨rfl, h6⟩, ?_, h7⟩
                    rw [h5]; decide
            | .vstr x, .vint n =>
                refine iff_of_false (fun h => by exact MergeErr.noConfusion (Except.error.inj h))
                  (fun hc => by have hb := (hc.2.2.2.2.1 h5).1; exact Bool.noConfusion hb)
            | .vstr x, .vlist l =>
                refine iff_of_false (fun h => by exact MergeErr.noConfusion (Except.error.inj h))
                  (fun hc => by have hb := (hc.2.2.2.2.1 h5).1; exact Bool.noConfusion hb)
            | .vnone, y => exact absurd rfl (Bool.eq_false_iff.mp h4)
            | .vint n, y =>
                refine iff_of_false (fun h => by exact MergeErr.noConfusion (Except.error.inj h))
                  (fun hc => by have hb := (hc.2.2.2.2.1 h5).1; exact Bool.noConfusion hb)
            | .vlist l, y =>
                refine iff_of_false (fun h => by exact MergeErr.noConfusion (Except.error.inj h))
                  (fun hc => by have hb := (hc.2.2.2.2.1 h5).1; exact Bool.noConfusion hb)
          · rw [if_neg h5]
            unfold mergeTail
            by_cases h8 : attr = "_Component__modeler"
            · rw [if_pos h8]
              exact iff_of_false (fun h => Except.noConfusion h)
                (fun hc => hc.2.2.2.2.2.1 h8)
            · rw [if_neg h8]
              by_cases h9 : t = a
              · rw [if_neg (not_not_intro h9)]
                exact iff_of_false (fun h => Except.noConfusion h)
                  (fun hc => hc.2.2.2.2.2.2 h9)
              · rw [if_pos h9]
                exact iff_of_true rfl ⟨h1, h2, h3, h4, fun hp => absurd hp h5, h8, h9⟩

theorem mergeAttr_error_crash (attr : String) (a t : Value)
    (h : mergeAttr attr a t = .error .typeCrash) : CrashCond attr a t := by
  unfold mergeAttr at h
  by_cases h1 : t = Value.vnone
  · rw [if_pos h1] at h; exact Except.noConfusion h
  · rw [if_neg h1] at h
    by_cases h2 : pySuffix attr "__xml_filename" = true
    · rw [if_pos h2] at h; exact Except.noConfusion h
    · rw [if_neg h2] at h
      replace h2 := Bool.eq_false_iff.mpr h2
      by_cases h3 : caseEq a t = true
      · rw [if_pos h3] at h; exact Except.noConfusion h
      · rw [if_neg h3] at h
        replace h3 := Bool.eq_false_iff.mpr h3
        by_cases h4 : falsy a = true
        · rw [if_pos h4] at h; exact Except.noConfusion h
        · rw [if_neg h4] at h
          replace h4 := Bool.eq_false_iff.mpr h4
          by_cases h5 : attr = "_Port__ptype"
          · rw [if_pos h5] at h
            match a, t with
            | .vstr x, .vstr y =>
                exfalso
                replace h : (if pySuffix x y = true then Except.ok (Value.vstr x)
                    else mergeTail attr (Value.vstr x) (Value.vstr y)) =
                    Except.error MergeErr.typeCrash := h
                by_cases h6 : pySuffix x y = true
                · rw [if_pos h6] at h; exact Except.noConfusion h
                · rw [if_neg h6] at h
                  unfold mergeTail at h
                  rw [if_neg (h5 ▸ (by decide : ("_Port__ptype" : String) ≠ "_Component__modeler"))] at h
                  by_cases h7 : Value.vstr y = Value.vstr x
                  · rw [if_neg (not_not_intro h7)] at h; exact Except.noConfusion h
                  · rw [if_pos h7] at h
                    exact MergeErr.noConfusion (Except.error.inj h)
            | .vstr x, .vint n => exact ⟨h5, h1, h2, h3, h4, rfl⟩
            | .vstr x, .vlist l => exact ⟨h5, h1, h2, h3, h4, rfl⟩
            | .vnone, y => exact absurd rfl (Bool.eq_false_iff.mp h4)
            | .vint n, y => exact ⟨h5, h1, h2, h3, h4, rfl⟩
            | .vlist l, y => exact ⟨h5, h1, h2, h3, h4, rfl⟩
          · rw [if_neg h5] at h
            unfold mergeTail at h
            by_cases h8 : attr = "_Component__modeler"
            · rw [if_pos h8] at h; exact Except.noConfusion h
            · rw [if_neg h8] at h
              by_cases h9 : t = a
              · rw [if_neg (not_not_intro h9)] at h; exact Except.noConfusion h
              · rw [if_pos h9] at h
                exact absurd (Except.error.inj h) (fun hh => MergeErr.noConfusion hh)

/-- Self-merge of an attribute value returns the value unchanged, provided the
value does not trigger the `_Port__ptype` `endswith` crash (which needs a
truthy non-string `_Port__ptype`). -/
theorem mergeAttr_self (attr : String) (v : Value)
    (hp : attr = "_Port__ptype" → (∃ s, v = .vstr s) ∨ falsy v = true) :
    mergeAttr attr v v = .ok v := by
  unfold mergeAttr
  by_cases h1 : v = Value.vnone
  · rw [if_pos h1]
  · rw [if_neg h1]
    by_cases h2 : pySuffix attr "__xml_filename" = true
    · rw [if_pos h2]
    · rw [if_neg h2]
      by_cases h3 : caseEq v v = true
      · rw [if_pos h3]
      · rw [if_neg h3]
        by_cases h4 : falsy v = true
        · rw [if_pos h4]
        · rw [if_neg h4]
          by_cases h5 : attr = "_Port__ptype"
          · rcases hp h5 with ⟨s, rfl⟩ | hf
            · exact absurd (by simp [caseEq]) h3
            · exact absurd hf h4
          · rw [if_neg h5]
            unfold mergeTail
            by_cases h8 : attr = "_Component__modeler"
            · rw [if_pos h8]
            · rw [if_neg h8, if_neg (not_not_intro rfl)]

theorem lookupA_nil (k : String) : lookupA [] k = .vnone := rfl

theorem lookupA_cons (k₀ : String) (v : Value) (rest : AttrMap) (k : String) :
    lookupA ((k₀, v) :: rest) k = if k₀ = k then v else lookupA rest k := by
  by_cases h : k₀ = k
  · simp [lookupA, List.find?_cons_of_pos, h]
  · simp only [lookupA, List.find?]
    have hb : ((k₀, v).1 == k) = false := by simpa using h
    rw [hb, if_neg h]

theorem lookupA_eq_vnone_of_notMem (o : AttrMap) (k : String) (h : k ∉ keysOf o) :
    lookupA o k = .vnone := by
  induction o with
  | nil => rfl
  | cons kv rest ih =>
      rw [show kv = (kv.1, kv.2) from rfl, lookupA_cons]
      have hk : kv.1 ≠ k := fun he => h (by simp [keysOf, he])
      rw [if_neg hk]
      exact ih (fun hm => h (by simp [keysOf] at hm ⊢; exact Or.inr hm))

theorem mem_keysOf_of_lookupA_ne (o : AttrMap) (k : String)
    (h : lookupA o k ≠ .vnone) : k ∈ keysOf o := by
  by_contra hm
  exact h (lookupA_eq_vnone_of_notMem o k hm)

theorem mem_mergeKeys_iff (amalgam traits : AttrMap) (k : String) :
    k ∈ mergeKeys amalgam traits ↔ k ∈ keysOf amalgam ∨ k ∈ keysOf traits := by
  simp only [mergeKeys, List.mem_append, List.mem_filter, Bool.not_eq_true']
  constructor
  · rintro (h | ⟨h, _⟩)
    · exact Or.inl h
    · exact Or.inr h
  · rintro (h | h)
    · exact Or.inl h
    · by_cases ha : k ∈ keysOf amalgam
      · exact Or.inl ha
      · refine Or.inr ⟨h, ?_⟩
        rw [← Bool.not_eq_true]
        exact fun hc => ha (List.elem_iff.mp hc)

theorem mergeFlatAux_cons (amalgam traits : AttrMap) (k : String) (ks : List String) :
    mergeFlatAux amalgam traits (k :: ks) =
      (mergeAttr k (lookupA amalgam k) (lookupA traits k)).bind
        (fun v => (mergeFlatAux amalgam traits ks).bind
          (fun rest => .ok ((k, v) :: rest))) := rfl

theorem mergeFlatAux_error_iff (amalgam traits : AttrMap) (ks : List String) :
    (∃ e, mergeFlatAux amalgam traits ks = .error e) ↔
      ∃ k ∈ ks, ∃ e, mergeAttr k (lookupA amalgam k) (lookupA traits k) = .error e := by
  induction ks with
  | nil => simp [mergeFlatAux]
  | cons k₀ ks ih =>
      rw [mergeFlatAux_cons]
      cases hX : mergeAttr k₀ (lookupA amalgam k₀) (lookupA traits k₀) with
      | error e =>
          simp only [Except.bind]
          constructor
          · intro _; exact ⟨k₀, List.mem_cons_self k₀ ks, e, hX⟩
          · intro _; exact ⟨e, rfl⟩
      | ok v =>
          simp only [Except.bind]
          cases hY : mergeFlatAux amalgam traits ks with
          | error e =>
              constructor
              · intro _
                rcases ih.mp ⟨e, hY⟩ with ⟨k, hk, he⟩
                exact ⟨k, List.mem_cons_of_mem k₀ hk, he⟩
              · intro _; exact ⟨e, rfl⟩
          | ok rest =>
              constructor
              · rintro ⟨e, he⟩; exact Except.noConfusion he
              · rintro ⟨k, hk, e, he⟩
                rcases List.mem_cons.mp hk with rfl | hk
                · rw [hX] at he; exact Except.noConfusion he
                · rcases ih.mpr ⟨k, hk, e, he⟩ with ⟨e₂, he₂⟩
                  rw [hY] at he₂; exact Except.noConfusion he₂

theorem mergeFlatAux_ok_lookup (amalgam traits : AttrMap) (ks : List String)
    (res : AttrMap) (hok : mergeFlatAux amalgam traits ks = .ok res) :
    (∀ k ∈ ks, mergeAttr k (lookupA amalgam k) (lookupA traits k) = .ok (lookupA res k)) ∧
    (∀ k, k ∉ ks → lookupA res k = .vnone) := by
  induction ks generalizing res with
  | nil =>
      have : res = [] := (Except.ok.inj hok).symm
      subst this
      exact ⟨fun k hk => absurd hk (List.not_mem_nil k), fun k _ => rfl⟩
  | cons k₀ ks ih =>
      rw [mergeFlatAux_cons] at hok
      cases hX : mergeAttr k₀ (lookupA amalgam k₀) (lookupA traits k₀) with
      | error e => rw [hX] at hok; exact Except.noConfusion hok
      | ok v =>
          rw [hX] at hok
          cases hY : mergeFlatAux amalgam traits ks with
          | error e => rw [hY] at hok; exact Except.noConfusion hok
          | ok rest =>
              rw [hY] at hok
              have hres : (k₀, v) :: rest = res := Except.ok.inj hok
              subst hres
              rcases ih rest hY with ⟨ih1, ih2⟩
              constructor
              · intro k hk
                rw [lookupA_cons]
                by_cases hkk : k₀ = k
                · subst hkk
                  rw [if_pos rfl]
                  exact hX
                · rw [if_neg hkk]
                  rcases List.mem_cons.mp hk with rfl | hk
                  · exact absurd rfl hkk
                  · exact ih1 k hk
              · intro k hk
                rw [lookupA_cons,
                  if_neg (fun he => hk (by rw [← he]; exact List.mem_cons_self k₀ ks))]
                exact ih2 k (fun hm => hk (List.mem_cons_of_mem k₀ hm))

/-- **C1 (amended).**  For the merge of two same-typed flat model objects
(objects without a port collection; port collections are merged recursively
and never compared directly): when the merge succeeds, every attribute whose
supplement (trait) value is unset (`None`) keeps the authoritative (amalgam)
value, and every attribute whose authoritative value is absent/falsy and whose
supplement value is set adopts the supplement value; and the merge raises
`InconsistencyException` exactly when some attribute has a truthy
authoritative value and a *set* (non-`None`, but possibly empty) unequal
supplement value not eligible for a tolerance rule (case-insensitive string
equality, `_Port__ptype` suffix equality, `__xml_filename`/`_Component__modeler`
bookkeeping).  The claim's requirement that the supplement value be non-empty
for a conflict is corrected: a set-but-empty supplement value also conflicts. -/
theorem merge_flat_characterization (amalgam traits : AttrMap)
    (_hport : "_Component__port_obj_list" ∉ mergeKeys amalgam traits)
    (hnc : ∀ k ∈ mergeKeys amalgam traits,
      ¬ CrashCond k (lookupA amalgam k) (lookupA traits k)) :
    (∀ res, mergeFlat amalgam traits = .ok res →
      (∀ k, lookupA traits k = .vnone → lookupA res k = lookupA amalgam k) ∧
      (∀ k, falsy (lookupA amalgam k) = true → lookupA traits k ≠ .vnone →
        lookupA res k = lookupA traits k)) ∧
    ((∃ e, mergeFlat amalgam traits = .error e) ↔
      ∃ k ∈ mergeKeys amalgam traits, ErrCond k (lookupA amalgam k) (lookupA traits k)) := by
  constructor
  · intro res hok
    rcases mergeFlatAux_ok_lookup amalgam traits (mergeKeys amalgam traits) res hok with ⟨h1, h2⟩
    constructor
    · intro k ht
      by_cases hk : k ∈ mergeKeys amalgam traits
      · have := h1 k hk
        rw [ht, mergeAttr_none_trait] at this
        exact (Except.ok.inj this).symm
      · rw [h2 k hk]
        have hka : k ∉ keysOf amalgam :=
          fun hm => hk ((mem_mergeKeys_iff amalgam traits k).mpr (Or.inl hm))
        rw [lookupA_eq_vnone_of_notMem amalgam k hka]
    · intro k hf ht
      have hk : k ∈ mergeKeys amalgam traits :=
        (mem_mergeKeys_iff amalgam traits k).mpr
          (Or.inr (mem_keysOf_of_lookupA_ne traits k ht))
      have := h1 k hk
      rw [mergeAttr_falsy k _ _ hf ht] at this
      exact (Except.ok.inj this).symm
  · rw [mergeFlat, mergeFlatAux_error_iff]
    constructor
    · rintro ⟨k, hk, e, he⟩
      cases e with
      | inconsistent => exact ⟨k, hk, (mergeAttr_error_inconsistent_iff k _ _).mp he⟩
      | typeCrash => exact absurd (mergeAttr_error_crash k _ _ he) (hnc k hk)
    · rintro ⟨k, hk, hc⟩
      exact ⟨k, hk, .inconsistent, (mergeAttr_error_inconsistent_iff k _ _).mpr hc⟩

/-- **C1 (counterexample).**  The claim says the merge raises exactly when both
sides hold a *non-empty* unequal value.  But merging authoritative value
`"x"` against the set-but-empty supplement value `""` raises
`InconsistencyException` even though the supplement side is empty (falsy). -/
theorem merge_flat_empty_supplement_counterexample :
    mergeFlat [("a", Value.vstr "x")] [("a", Value.vstr "")] = .error .inconsistent ∧
    falsy (Value.vstr "") = true := ⟨rfl, rfl⟩

/-- **C1 (witness).**  The characterization applied to a concrete merge where
the authoritative value of `"x"` is empty (adopting the supplement) and the
supplement of `"y"` is unset (keeping the authoritative value). -/
theorem merge_flat_characterization_witness :
    lookupA [("x", Value.vstr "v"), ("y", Value.vstr "keep")] "x" = Value.vstr "v" ∧
    lookupA [("x", Value.vstr "v"), ("y", Value.vstr "keep")] "y" = Value.vstr "keep" := by
  have h := merge_flat_characterization
    [("x", Value.vstr ""), ("y", Value.vstr "keep")] [("x", Value.vstr "v")]
    (by decide) (by decide)
  rcases h.1 [("x", Value.vstr "v"), ("y", Value.vstr "keep")] rfl with ⟨hkeep, hadopt⟩
  constructor
  · exact hadopt "x" (by decide) (by decide)
  · rw [hkeep "y" (by decide)]; rfl

/-- **C4 (amended).**  When both sides of an attribute are strings that are
case-insensitively equal, the merge succeeds for that attribute but the merged
result adopts the *supplement's* value (the branch falls through to
`setattr(amalgam, attr, trait_value)`), not the authoritative one as claimed. -/
theorem merge_case_insensitive_adopts_supplement (amalgam traits res : AttrMap)
    (k s u : String)
    (hok : mergeFlat amalgam traits = .ok res)
    (ha : lookupA amalgam k = .vstr s) (ht : lookupA traits k = .vstr u)
    (hcase : pyLower s = pyLower u) :
    lookupA res k = .vstr u := by
  have hk : k ∈ mergeKeys amalgam traits :=
    (mem_mergeKeys_iff amalgam traits k).mpr
      (Or.inr (mem_keysOf_of_lookupA_ne traits k (by rw [ht]; exact fun h => Value.noConfusion h)))
  have h1 := (mergeFlatAux_ok_lookup amalgam traits (mergeKeys amalgam traits) res hok).1 k hk
  rw [ha, ht] at h1
  rw [mergeAttr_caseEq k _ _ (by simp [caseEq, hcase]) (fun h => Value.noConfusion h)] at h1
  exact (Except.ok.inj h1).symm

/-- **C4 (counterexample).**  Merging authoritative `"Abc"` against supplement
`"aBC"` (case-insensitively equal, not identical) yields `"aBC"`: the
supplement's capitalization is adopted, refuting the claim that the
authoritative value is retained unchanged. -/
theorem merge_case_insensitive_counterexample :
    mergeFlat [("a", Value.vstr "Abc")] [("a", Value.vstr "aBC")] =
      .ok [("a", Value.vstr "aBC")] ∧
    Value.vstr "aBC" ≠ Value.vstr "Abc" := ⟨rfl, by decide⟩

/-- **C4 (witness).**  The amended statement applied at the counterexample
input. -/
theorem merge_case_insensitive_witness :
    lookupA [("a", Value.vstr "aBC")] "a" = Value.vstr "aBC" :=
  merge_case_insensitive_adopts_supplement
    [("a", Value.vstr "Abc")] [("a", Value.vstr "aBC")] [("a", Value.vstr "aBC")]
    "a" "Abc" "aBC" rfl rfl rfl (by decide)

/-- A `Port` model object, as seen by the merge: its attribute dictionary. -/
abbrev MPort := AttrMap

/-- `port.get_name()`. -/
def portName (p : MPort) : Value := lookupA p "_Port__name"

/-- `port.get_source_num()`. -/
def portNum (p : MPort) : Value := lookupA p "_Port__source_num"

/-- `get_port_by_name(component, name, index)` from `patcher.py` (also the
`Component.get_port_by_name` method used by `factory.py`): filter the ports by
name, return `None` if none; filter those by source number, return `None` if
none; otherwise the first match. -/
def get_port_by_name (ports : List MPort) (name index : Value) : Option MPort :=
  let named := ports.filter (fun q => portName q == name)
  if named = [] then none
  else
    let indexed := named.filter (fun q => portNum q == index)
    if indexed = [] then none else indexed.head?

/-- The `for port in amalgam._Component__port_obj_list` loop of the
`_Component__port_obj_list` branch of `merge_object_model`: each amalgam port
is merged against the traits port sharing its `(name, source_num)`, if any. -/
def mergePortsList (traits_ports : List MPort) : List MPort → Except MergeErr (List MPort)
  | [] => .ok []
  | p :: rest => do
      let v ← (match get_port_by_name traits_ports (portName p) (portNum p) with
               | none => .ok p
               | some tp => mergeFlat p tp)
      let vs ← mergePortsList traits_ports rest
      pure (v :: vs)

/-- The whole `_Component__port_obj_list` branch: merge each amalgam port
in place, then append the traits ports absent from the amalgam. -/
def mergePorts (amalgam_ports traits_ports : List MPort) : Except MergeErr (List MPort) := do
  let merged ← mergePortsList traits_ports amalgam_ports
  let new_ports := traits_ports.filter
    (fun tp => (get_port_by_name amalgam_ports (portName tp) (portNum tp)).isNone)
  pure (merged ++ new_ports)

/-- A `Component` model object: its flat attributes (everything except the
port collection) and its `_Component__port_obj_list`. -/
structure MComp where
  attrs : AttrMap
  ports : List MPort
deriving DecidableEq, Repr

/-- `merge_object_model` on `Component` objects: all non-port attributes are
merged by `mergeAttr`, the port collection by the recursive port branch. -/
def merge_object_model (amalgam traits : MComp) : Except MergeErr MComp := do
  let attrs ← mergeFlat amalgam.attrs traits.attrs
  let ports ← mergePorts amalgam.ports traits.ports
  pure ⟨attrs, ports⟩

/-- Value shapes of a `_Port__ptype` attribute that do not trigger the
`endswith` type crash on self-merge: a string, or a falsy value. -/
def ptypeShape : Value → Bool
  | .vstr _ => true
  | v => falsy v

theorem mergeFlatAux_all_ok (amalgam traits : AttrMap) (f : String → Value)
    (ks : List String)
    (h : ∀ k ∈ ks, mergeAttr k (lookupA amalgam k) (lookupA traits k) = .ok (f k)) :
    mergeFlatAux amalgam traits ks = .ok (ks.map (fun k => (k, f k))) := by
  induction ks with
  | nil => rfl
  | cons k₀ ks ih =>
      rw [mergeFlatAux_cons, h k₀ (List.mem_cons_self k₀ ks),
        ih (fun k hk => h k (List.mem_cons_of_mem k₀ hk))]
      rfl

theorem mergeKeys_self (x : AttrMap) : mergeKeys x x = keysOf x := by
  unfold mergeKeys
  rw [List.filter_eq_nil_iff.mpr, List.append_nil]
  intro k hk
  simp only [Bool.not_eq_true', Bool.not_eq_false]
  exact List.elem_iff.mpr hk

theorem attrmap_map_lookup (x : AttrMap) (hk : (keysOf x).Nodup) :
    (keysOf x).map (fun k => (k, lookupA x k)) = x := by
  induction x with
  | nil => rfl
  | cons kv rest ih =>
      rw [show kv = (kv.1, kv.2) from rfl] at hk ⊢
      simp only [keysOf, List.map_cons] at hk ⊢
      rw [List.nodup_cons] at hk
      congr 1
      · rw [lookupA_cons, if_pos rfl]
      · rw [List.map_congr_left (fun k hkm => by
            rw [lookupA_cons, if_neg (fun he => hk.1
              (show kv.1 ∈ List.map Prod.fst rest by rw [he]; exact hkm))])]
        exact ih hk.2

theorem mergeAttr_self_of_shape (k : String) (v : Value)
    (hv : k = "_Port__ptype" → ptypeShape v = true) :
    mergeAttr k v v = .ok v := by
  refine mergeAttr_self k v (fun hp => ?_)
  have := hv hp
  cases v with
  | vstr s => exact Or.inl ⟨s, rfl⟩
  | vnone => exact Or.inr rfl
  | vint n => exact Or.inr (by simpa [ptypeShape] using this)
  | vlist l => exact Or.inr (by simpa [ptypeShape] using this)

theorem mergeFlat_self (x : AttrMap) (hk : (keysOf x).Nodup)
    (hpt : ptypeShape (lookupA x "_Port__ptype") = true) :
    mergeFlat x x = .ok x := by
  unfold mergeFlat
  rw [mergeKeys_self,
    mergeFlatAux_all_ok x x (fun k => lookupA x k) (keysOf x)
      (fun k _ => mergeAttr_self_of_shape k (lookupA x k) (fun he => he ▸ hpt)),
    attrmap_map_lookup x hk]

theorem filter_key_pair_eq_single (ports : List MPort) (p : MPort)
    (hnd : (ports.map (fun q => (portName q, portNum q))).Nodup) (hp : p ∈ ports) :
    ports.filter (fun q => portNum q == portNum p && portName q == portName p) = [p] := by
  induction ports with
  | nil => exact absurd hp (List.not_mem_nil p)
  | cons q rest ih =>
      simp only [List.map_cons, List.nodup_cons] at hnd
      rcases List.mem_cons.mp hp with rfl | hp
      · rw [List.filter_cons_of_pos (by simp)]
        rw [List.filter_eq_nil_iff.mpr, ]
        intro r hr
        simp only [Bool.and_eq_true, beq_iff_eq, not_and]
        intro hm hn
        exact hnd.1 (by
          refine List.mem_map.mpr ⟨r, hr, ?_⟩
          rw [hn, hm])
      · rw [List.filter_cons_of_neg, ih hnd.2 hp]
        simp only [Bool.and_eq_true, beq_iff_eq, not_and]
        intro hm hn
        exact absurd (List.mem_map.mpr ⟨p, hp, by rw [hn, hm]⟩) hnd.1

theorem get_port_by_name_self (ports : List MPort) (p : MPort)
    (hnd : (ports.map (fun q => (portName q, portNum q))).Nodup) (hp : p ∈ ports) :
    get_port_by_name ports (portName p) (portNum p) = some p := by
  unfold get_port_by_name
  have hboth : (ports.filter (fun q => portName q == portName p)).filter
      (fun q => portNum q == portNum p) = [p] := by
    rw [List.filter_filter]
    exact filter_key_pair_eq_single ports p hnd hp
  have hmemn : p ∈ ports.filter (fun q => portName q == portName p) :=
    List.mem_filter.mpr ⟨hp, by simp⟩
  rw [if_neg (List.ne_nil_of_mem hmemn)]
  simp only [hboth]
  rw [if_neg (by simp)]
  rfl

theorem mergePorts_self (ports : List MPort)
    (hnd : (ports.map (fun q => (portName q, portNum q))).Nodup)
    (hattrs : ∀ p ∈ ports, (keysOf p).Nodup)
    (hpt : ∀ p ∈ ports, ptypeShape (lookupA p "_Port__ptype") = true) :
    mergePorts ports ports = .ok ports := by
  unfold mergePorts
  have hlist : mergePortsList ports ports = .ok ports := by
    have haux : ∀ sub : List MPort, (∀ p ∈ sub, p ∈ ports) →
        mergePortsList ports sub = .ok sub := by
      intro sub
      induction sub with
      | nil => intro _; rfl
      | cons p rest ih =>
          intro hsub
          have hp : p ∈ ports := hsub p (List.mem_cons_self p rest)
          unfold mergePortsList
          rw [get_port_by_name_self ports p hnd hp]
          simp only
          rw [mergeFlat_self p (hattrs p hp) (hpt p hp),
            ih (fun q hq => hsub q (List.mem_cons_of_mem p hq))]
          rfl
    exact haux ports (fun _ h => h)
  rw [hlist]
  have hnew : ports.filter
      (fun tp => (get_port_by_name ports (portName tp) (portNum tp)).isNone) = [] := by
    refine List.filter_eq_nil_iff.mpr (fun tp htp => ?_)
    rw [get_port_by_name_self ports tp hnd htp]
    simp
  rw [hnew]
  simp [Except.bind]

/-- **C9.**  The merge is idempotent on identical inputs: for every model
object `x` satisfying the data-model invariants (attribute dictionaries have
unique keys, `(name, source_num)` uniquely identifies a port of the
collection, and any `_Port__ptype` attribute is a string or falsy — the shapes
under which Python's `x.ptype.endswith(...)` self-comparison does not crash),
`merge_object_model(x, x)` succeeds and returns `x` unchanged, raising no
`InconsistencyException`. -/
theorem merge_idempotent (x : MComp)
    (hattrs : (keysOf x.attrs).Nodup)
    (hattrPt : ptypeShape (lookupA x.attrs "_Port__ptype") = true)
    (hpkeys : (x.ports.map (fun q => (portName q, portNum q))).Nodup)
    (hpattrs : ∀ p ∈ x.ports, (keysOf p).Nodup)
    (hpPt : ∀ p ∈ x.ports, ptypeShape (lookupA p "_Port__ptype") = true) :
    merge_object_model x x = .ok x := by
  unfold merge_object_model
  rw [mergeFlat_self x.attrs hattrs hattrPt,
    mergePorts_self x.ports hpkeys hpattrs hpPt]
  rfl

/-- **C9 (witness).**  Idempotence evaluated on a concrete component with a
two-element port array. -/
theorem merge_idempotent_witness :
    merge_object_model
      ⟨[("_Component__kind", Value.vstr "SignalGen"), ("_Component__namespace", Value.vnone)],
        [[("_Port__name", Value.vstr "dataIn"), ("_Port__source_num", Value.vint 0),
          ("_Port__ptype", Value.vstr "Svc::Sched")],
         [("_Port__name", Value.vstr "dataIn"), ("_Port__source_num", Value.vint 1),
          ("_Port__ptype", Value.vstr "Svc::Sched")]]⟩
      ⟨[("_Component__kind", Value.vstr "SignalGen"), ("_Component__namespace", Value.vnone)],
        [[("_Port__name", Value.vstr "dataIn"), ("_Port__source_num", Value.vint 0),
          ("_Port__ptype", Value.vstr "Svc::Sched")],
         [("_Port__name", Value.vstr "dataIn"), ("_Port__source_num", Value.vint 1),
          ("_Port__ptype", Value.vstr "Svc::Sched")]]⟩ =
    .ok ⟨[("_Component__kind", Value.vstr "SignalGen"), ("_Component__namespace", Value.vnone)],
        [[("_Port__name", Value.vstr "dataIn"), ("_Port__source_num", Value.vint 0),
          ("_Port__ptype", Value.vstr "Svc::Sched")],
         [("_Port__name", Value.vstr "dataIn"), ("_Port__source_num", Value.vint 1),
          ("_Port__ptype", Value.vstr "Svc::Sched")]]⟩ :=
  merge_idempotent _ (by decide) (by decide) (by decide) (by decide) (by decide)

end Patcher

namespace Checks

/-- A patched-model port instance: identity `(name, source_num)`, its type,
direction and declared cardinality, and the optional target reference. -/
structure Port where
  name : String
  ptype : Option String
  direction : Option String
  source_num : Nat
  max_number : Option Nat
  target_comp : Option String
  target_port : Option String
  target_num : Option Nat
  target_type : Option String
  target_direction : Option String
deriving DecidableEq, Repr

/-- A component instance: its name and expanded port instances. -/
structure Component where
  name : String
  ports : List Port
deriving DecidableEq, Repr

/-- A reconciled topology: its name and component instances. -/
structure Topology where
  name : String
  comps : List Component
deriving DecidableEq, Repr

/-- `get_comp_by_name` from `patcher.py`: `None` when absent,
`InconsistencyException` (modelled as `.error ()`) when the name is ambiguous,
otherwise the unique component. -/
def get_comp_by_name (model : Topology) (name : String) : Except Unit (Option Component) :=
  match model.comps.filter (fun c => c.name == name) with
  | [] => .ok none
  | [c] => .ok (some c)
  | _ => .error ()

/-- `get_port_by_name(component, name, index)` from `patcher.py` on the
instance model: filter ports by name (`None` if none), filter those by source
number (`None` if none), else the first. -/
def get_port_by_name (component : Component) (name : String) (index : Option Nat) :
    Option Port :=
  let ports := component.ports.filter (fun p => p.name == name)
  if ports = [] then none
  else
    let ports_of_index := ports.filter (fun p => (some p.source_num : Option Nat) == index)
    if ports_of_index = [] then none else ports_of_index.head?

/-- `CheckBase.get_standard_identifier(top, comp, port)` with all three models
present: `top.comp.port:num`. -/
def get_standard_identifier (top : Topology) (comp : Component) (port : Port) : String :=
  top.name ++ "." ++ comp.name ++ "." ++ port.name ++ ":" ++ toString port.source_num

/-- Problem severities (`CheckSeverity`). -/
inductive CheckSeverity where
  | warning : CheckSeverity
  | error : CheckSeverity
deriving DecidableEq, Repr

/-- A reported problem, as stored by `CheckResult.add_problem`. -/
structure Problem where
  severity : CheckSeverity
  identifier : String
  message : String
  module : String
deriving DecidableEq, Repr

/-- All port instances of the topology in `PortCollision.run`'s traversal
order (`for component in model.get_comp_list(): for port in
component.get_ports()`). -/
def allPorts (model : Topology) : List Port := model.comps.flatMap (fun c => c.ports)

/-- The loop body of `PortCollision.run` for one port, up to the collision
bookkeeping: `none` when the body raises an uncaught exception (direction is
`None`, a duplicate component name, a missing target component dereferenced as
`None.get_ports()`, or a missing target port dereferenced as
`None.get_max_number()`); `some none` when the port is skipped (`continue`);
`some (some key)` when the port is an eligible output whose resolved target
yields the collision key `key` (the target's standard identifier). -/
def classifyPort (model : Topology) (port : Port) : Option (Option String) :=
  match port.direction with
  | none => none
  | some d =>
      if pyLower d = "input" then some none
      else
        match port.target_port, port.target_comp with
        | some tp, some tc =>
            match get_comp_by_name model tc with
            | .error _ => none
            | .ok none => none
            | .ok (some target_comp_obj) =>
                match get_port_by_name target_comp_obj tp port.target_num with
                | none => none
                | some target_port_obj =>
                    match target_port_obj.max_number with
                    | none => some none
                    | some m =>
                        if m ≤ 1 then some none
                        else some (some (get_standard_identifier model target_comp_obj
                          target_port_obj))
        | _, _ => some none

/-- The `port_mappings` fold of `PortCollision.run`: a problem is added for
every eligible output whose key was already seen; the key is then recorded.
`none` models an uncaught exception aborting the check. -/
def collisionAux (model : Topology) :
    List Port → List String → List Problem → Option (List Problem)
  | [], _, probs => some probs
  | p :: rest, seen, probs =>
      match classifyPort model p with
      | none => none
      | some none => collisionAux model rest seen probs
      | some (some key) =>
          collisionAux model rest (key :: seen)
            (if seen.contains key then
              probs ++ [⟨.error, "array-port-collision", "has colliding inputs", key⟩]
            else probs)

/-- `PortCollision.run` over the whole topology. -/
def portCollisionRun (model : Topology) : Option (List Problem) :=
  collisionAux model (allPorts model) [] []

/-- Number of `array-port-collision` problems located at `key`. -/
def collisionCount (probs : List Problem) (key : String) : Nat :=
  probs.countP (fun pr => pr.identifier == "array-port-collision" && pr.module == key)

/-- Number of eligible connected outputs resolving to collision key `key`. -/
def eligibleCount (model : Topology) (key : String) : Nat :=
  (allPorts model).countP (fun p => classifyPort model p == some (some key))

theorem collisionAux_count (model : Topology) (key : String) :
    ∀ (l : List Port) (seen : List String) (probs out : List Problem),
      collisionAux model l seen probs = some out →
      collisionCount out key =
        collisionCount probs key +
          (if seen.contains key then
            l.countP (fun p => classifyPort model p == some (some key))
          else l.countP (fun p => classifyPort model p == some (some key)) - 1) := by
  intro l
  induction l with
  | nil =>
      intro seen probs out h
      have : probs = out := Option.some.inj h
      subst this
      simp [List.countP_nil]
  | cons p rest ih =>
      intro seen probs out h
      unfold collisionAux at h
      cases hc : classifyPort model p with
      | none => rw [hc] at h; exact Option.noConfusion h
      | some oc =>
          rw [hc] at h
          cases oc with
          | none =>
              have hcount : (p :: rest).countP
                  (fun q => classifyPort model q == some (some key)) =
                  rest.countP (fun q => classifyPort model q == some (some key)) := by
                rw [List.countP_cons, hc]
                simp
              rw [hcount]
              exact ih seen probs out h
          | some k =>
              by_cases hk : k = key
              · subst hk
                have hcount : (p :: rest).countP
                    (fun q => classifyPort model q == some (some k)) =
                    rest.countP (fun q => classifyPort model q == some (some k)) + 1 := by
                  rw [List.countP_cons, hc]
                  simp
                rw [hcount]
                have hrec := ih (k :: seen) _ out h
                have hseen : (k :: seen).contains k = true := by
                  rw [List.contains_cons]
                  simp
                rw [if_pos hseen] at hrec
                by_cases hs : seen.contains k = true
                · rw [if_pos hs] at hrec ⊢
                  have hadd : collisionCount
                      (probs ++ [⟨.error, "array-port-collision", "has colliding inputs", k⟩])
                      k = collisionCount probs k + 1 := by
                    unfold collisionCount
                    rw [List.countP_append]
                    simp
                  rw [hadd] at hrec
                  omega
                · rw [if_neg hs] at hrec ⊢
                  omega
              · have hcount : (p :: rest).countP
                    (fun q => classifyPort model q == some (some key)) =
                    rest.countP (fun q => classifyPort model q == some (some key)) := by
                  rw [List.countP_cons, hc]
                  simp [hk]
                rw [hcount]
                have hrec := ih (k :: seen) _ out h
                have hcontains : (k :: seen).contains key = seen.contains key := by
                  rw [List.contains_cons]
                  simp [Ne.symm hk]
                rw [hcontains] at hrec
                have hprobs : collisionCount
                    (if seen.contains k then
                      probs ++ [⟨.error, "array-port-collision", "has colliding inputs", k⟩]
                    else probs) key = collisionCount probs key := by
                  by_cases hs : seen.contains k = true
                  · rw [if_pos hs]
                    unfold collisionCount
                    rw [List.countP_append]
                    simp [hk]
                  · rw [if_neg hs]
                rw [hprobs] at hrec
                exact hrec

/-- **C2 (amended).**  On any topology where `PortCollision.run` completes,
the number of `array-port-collision` problems reported at a collision key is
the number of eligible outputs targeting that key *minus one*: one problem per
output after the first, not exactly one per key.  Three distinct outputs
targeting the same `(component, port, index)` therefore yield two problems,
refuting the claim's "exactly one (the first collision only)". -/
theorem portCollision_count (model : Topology) (key : String) (probs : List Problem)
    (h : portCollisionRun model = some probs) :
    collisionCount probs key = eligibleCount model key - 1 := by
  have := collisionAux_count model key (allPorts model) [] [] probs h
  simpa [collisionCount, eligibleCount] using this

/-- Three output ports (on `A`, `B`, `D`) all targeting `C.dataIn:2`, where
`dataIn` is a three-element port array. -/
def collisionExampleTopology : Topology :=
  { name := "Top",
    comps :=
      [ { name := "C",
          ports :=
            [ ⟨"dataIn", some "T", some "input", 0, some 3, none, none, none, none, none⟩,
              ⟨"dataIn", some "T", some "input", 1, some 3, none, none, none, none, none⟩,
              ⟨"dataIn", some "T", some "input", 2, some 3, none, none, none, none, none⟩ ] },
        { name := "A",
          ports := [ ⟨"out", some "T", some "output", 0, some 1, some "C", some "dataIn",
            some 2, some "T", some "input"⟩ ] },
        { name := "B",
          ports := [ ⟨"out", some "T", some "output", 0, some 1, some "C", some "dataIn",
            some 2, some "T", some "input"⟩ ] },
        { name := "D",
          ports := [ ⟨"out", some "T", some "output", 0, some 1, some "C", some "dataIn",
            some 2, some "T", some "input"⟩ ] } ] }

/-- **C2 (counterexample).**  On the concrete topology with three distinct
outputs targeting `C.dataIn:2` (`max_count = 3`), the check reports **two**
`array-port-collision` problems at `Top.C.dataIn:2`, not exactly one as
claimed. -/
theorem portCollision_three_outputs_counterexample :
    eligibleCount collisionExampleTopology "Top.C.dataIn:2" = 3 ∧
    (portCollisionRun collisionExampleTopology).map
      (fun probs => collisionCount probs "Top.C.dataIn:2") = some 2 := by
  constructor
  · rfl
  · rfl

/-- **C2 (witness).**  The amended counting theorem applied to the concrete
three-output topology. -/
theorem portCollision_count_witness :
    collisionCount
      [⟨.error, "array-port-collision", "has colliding inputs", "Top.C.dataIn:2"⟩,
       ⟨.error, "array-port-collision", "has colliding inputs", "Top.C.dataIn:2"⟩]
      "Top.C.dataIn:2" = eligibleCount collisionExampleTopology "Top.C.dataIn:2" - 1 :=
  portCollision_count collisionExampleTopology "Top.C.dataIn:2" _ rfl

theorem collisionAux_none_of_crash (model : Topology) (p : Port)
    (hc : classifyPort model p = none) :
    ∀ (l : List Port) (seen : List String) (probs : List Problem), p ∈ l →
      collisionAux model l seen probs = none := by
  intro l
  induction l with
  | nil => intro _ _ hp; exact absurd hp (List.not_mem_nil p)
  | cons q rest ih =>
      intro seen probs hp
      unfold collisionAux
      rcases List.mem_cons.mp hp with rfl | hp
      · rw [hc]
      · cases hq : classifyPort model q with
        | none => rfl
        | some oc =>
            cases oc with
            | none => exact ih seen probs hp
            | some k => exact ih (k :: seen) _ hp

/-- **C10.**  If any output port instance with a populated target reference
names a target component that does not exist in the topology, or a target
port/index absent from the target component, `PortCollision.run` raises an
uncaught exception (the resolved `None` is dereferenced without a guard),
aborting the entire check with no problems reported. -/
theorem portCollision_crashes_on_missing_target (model : Topology) (p : Port)
    (d tc tp : String)
    (hp : p ∈ allPorts model)
    (hd : p.direction = some d) (hout : pyLower d ≠ "input")
    (htp : p.target_port = some tp) (htc : p.target_comp = some tc)
    (hmiss : get_comp_by_name model tc = .ok none ∨
      ∃ c, get_comp_by_name model tc = .ok (some c) ∧
        get_port_by_name c tp p.target_num = none) :
    portCollisionRun model = none := by
  have hc : classifyPort model p = none := by
    rcases hmiss with hnone | ⟨c, hcomp, hport⟩
    · simp only [classifyPort, hd, htp, htc, if_neg hout, hnone]
    · simp only [classifyPort, hd, htp, htc, if_neg hout, hcomp, hport]
  exact collisionAux_none_of_crash model p hc (allPorts model) [] [] hp

/-- A topology whose only output targets the non-existent component `Ghost`. -/
def ghostTopology : Topology :=
  ⟨"Top", [⟨"A", [⟨"out", some "T", some "output", 0, some 1, some "Ghost", some "in",
    some 0, some "T", some "input"⟩]⟩]⟩

/-- **C10 (witness).**  The crash theorem evaluated on the concrete topology
wired to a missing component. -/
theorem portCollision_crash_witness : portCollisionRun ghostTopology = none :=
  portCollision_crashes_on_missing_target ghostTopology
    ⟨"out", some "T", some "output", 0, some 1, some "Ghost", some "in",
      some 0, some "T", some "input"⟩
    "output" "Ghost" "in" (by decide) rfl (by decide) rfl rfl (Or.inl rfl)

/-- One positionally aligned pair of the hub check: a local hub port and the
component port it is wired to (possibly none), and likewise on the remote
side — one element of the `sequence` list built in `HubLinter.run`. -/
structure HubPair where
  lh : Port
  lc : Option Port
  rh : Port
  rc : Option Port
deriving DecidableEq, Repr

/-- The `if/elif` condition chain of `HubLinter.run` for one aligned pair,
returning the identifiers of the problems it reports (locations and messages
elided).  Branches in source order: hub indices differ; both component ports
absent; local present/remote absent; local absent/remote present; component
port types differ; hub port directions equal; component port directions
equal. -/
def hubPairProblems (lh : Port) (lc : Option Port) (rh : Port) (rc : Option Port) :
    List String :=
  if lh.source_num ≠ rh.source_num then ["hub-unused-ports-not-parallel"]
  else
    match lc, rc with
    | none, none => ["hub-ports-unused"]
    | some _, none => ["hub-ports-not-connected"]
    | none, some _ => ["hub-ports-not-connected"]
    | some local_comp_port, some remote_comp_port =>
        if local_comp_port.ptype ≠ remote_comp_port.ptype then ["hub-ports-not-parallel"]
        else if lh.direction = rh.direction then ["hub-port-directions-not-parallel"]
        else if local_comp_port.direction = remote_comp_port.direction then
          ["hub-port-directions-not-parallel"]
        else []

/-- The loop over the zipped `sequence` of aligned pairs in `HubLinter.run`. -/
def hubRunPairs (seq : List HubPair) : List String :=
  seq.flatMap (fun q => hubPairProblems q.lh q.lc q.rh q.rc)

/-- Both attached component ports are absent. -/
def condBothAbsent (lc rc : Option Port) : Bool :=
  match lc, rc with
  | none, none => true
  | _, _ => false

/-- Exactly one attached component port is absent. -/
def condOneAbsent (lc rc : Option Port) : Bool :=
  match lc, rc with
  | some _, none => true
  | none, some _ => true
  | _, _ => false

/-- The attached component ports are both present with differing types. -/
def condTypesDiffer (lc rc : Option Port) : Bool :=
  match lc, rc with
  | some l, some r => decide (l.ptype ≠ r.ptype)
  | _, _ => false

/-- The attached component ports are both present with equal directions. -/
def condCompDirsEqual (lc rc : Option Port) : Bool :=
  match lc, rc with
  | some l, some r => decide (l.direction = r.direction)
  | _, _ => false

/-- The six problem conditions of the hub pair check, in the claimed fixed
priority order, paired with the identifier each reports. -/
def hubConds (lh : Port) (lc : Option Port) (rh : Port) (rc : Option Port) :
    List (Bool × String) :=
  [ (decide (lh.source_num ≠ rh.source_num), "hub-unused-ports-not-parallel"),
    (condBothAbsent lc rc, "hub-ports-unused"),
    (condOneAbsent lc rc, "hub-ports-not-connected"),
    (condTypesDiffer lc rc, "hub-ports-not-parallel"),
    (decide (lh.direction = rh.direction), "hub-port-directions-not-parallel"),
    (condCompDirsEqual lc rc, "hub-port-directions-not-parallel") ]

/-- **C6.**  For every positionally aligned pair of local and remote hub
ports, the hub check reports exactly the *first* applicable condition of the
fixed priority order (hub indices differ; both attached ports absent; exactly
one absent; attached types differ; hub directions equal; attached directions
equal) — at most one problem per pair, and no later condition is evaluated
once one fires. -/
theorem hub_pair_first_applicable (lh : Port) (lc : Option Port) (rh : Port)
    (rc : Option Port) :
    hubPairProblems lh lc rh rc =
      (((hubConds lh lc rh rc).find? (fun c => c.1)).map (fun c => [c.2])).getD [] ∧
    (hubPairProblems lh lc rh rc).length ≤ 1 := by
  refine ⟨?_, ?_⟩
  · unfold hubPairProblems hubConds
    by_cases h1 : lh.source_num ≠ rh.source_num
    · rw [if_pos h1]
      simp [List.find?, h1]
    · rw [if_neg h1]
      cases lc with
      | none =>
          cases rc with
          | none => simp [List.find?, h1, condBothAbsent, condOneAbsent]
          | some r => simp [List.find?, h1, condBothAbsent, condOneAbsent]
      | some l =>
          cases rc with
          | none => simp [List.find?, h1, condBothAbsent, condOneAbsent]
          | some r =>
              show (if l.ptype ≠ r.ptype then ["hub-ports-not-parallel"]
                else if lh.direction = rh.direction then ["hub-port-directions-not-parallel"]
                else if l.direction = r.direction then ["hub-port-directions-not-parallel"]
                else []) = _
              by_cases h4 : l.ptype ≠ r.ptype
              · rw [if_pos h4]
                simp [List.find?, h1, condBothAbsent, condOneAbsent, condTypesDiffer, h4]
              · rw [if_neg h4]
                by_cases h5 : lh.direction = rh.direction
                · rw [if_pos h5]
                  simp [List.find?, h1, condBothAbsent, condOneAbsent, condTypesDiffer,
                    h4, h5]
                · rw [if_neg h5]
                  by_cases h6 : l.direction = r.direction
                  · rw [if_pos h6]
                    simp [List.find?, h1, condBothAbsent, condOneAbsent, condTypesDiffer,
                      condCompDirsEqual, h4, h5, h6]
                  · rw [if_neg h6]
                    simp [List.find?, h1, condBothAbsent, condOneAbsent, condTypesDiffer,
                      condCompDirsEqual, h4, h5, h6]
  · unfold hubPairProblems
    by_cases h1 : lh.source_num ≠ rh.source_num
    · rw [if_pos h1]; decide
    · rw [if_neg h1]
      cases lc with
      | none => cases rc <;> simp
      | some l =>
          cases rc with
          | none => simp
          | some r =>
              show (if l.ptype ≠ r.ptype then ["hub-ports-not-parallel"]
                else if lh.direction = rh.direction then ["hub-port-directions-not-parallel"]
                else if l.direction = r.direction then ["hub-port-directions-not-parallel"]
                else []).length ≤ 1
              by_cases h4 : l.ptype ≠ r.ptype
              · rw [if_pos h4]; decide
              · rw [if_neg h4]
                by_cases h5 : lh.direction = rh.direction
                · rw [if_pos h5]; decide
                · rw [if_neg h5]
                  by_cases h6 : l.direction = r.direction
                  · rw [if_pos h6]; decide
                  · rw [if_neg h6]; decide

/-- `port.set_source_num(i)`. -/
def setSourceNum (p : Port) (i : Nat) : Port := { p with source_num := i }

/-- `port.set_target_comp(v)`. -/
def setTargetComp (p : Port) (v : Option String) : Port := { p with target_comp := v }

/-- `int(port.get_max_number())`.  Modelled only for ports with a declared
cardinality (`int(None)` would raise in the source). -/
def maxNum (p : Port) : Nat := p.max_number.getD 1

/-- The deep copies appended for one (already zeroed) port by the expansion
loop of `mega_component_loader` / `__component_loader`: clones at source
numbers `1 .. max_number - 1`. -/
def portBlock (p : Port) : List Port :=
  (List.range' 1 (maxNum p - 1)).map (fun i => setSourceNum p i)

/-- The port-array expansion of `mega_component_loader` (factory.py 96-104)
and `__component_loader` (patcher.py 138-146) on a component's port list:
every declared port is set to source number 0, and for each one deep copies at
source numbers `1 .. max_number - 1` are appended after the originals. -/
def expandPorts (ports : List Port) : List Port :=
  let zeroed := ports.map (fun p => setSourceNum p 0)
  zeroed ++ zeroed.flatMap portBlock

/-- A component's port objects as a heap: `cells` is the object store and
`portRefs` the `_Component__port_obj_list` as references into it, so that
aliasing (two list entries denoting one object) is representable.  Python's
`copy.deepcopy` corresponds to allocating a fresh cell. -/
structure CompObj where
  cells : List Port
  portRefs : List Nat
deriving DecidableEq, Repr

/-- Dereference a port object. -/
def derefPort (c : CompObj) (r : Nat) : Option Port := c.cells[r]?

/-- The component's port instances, in list order. -/
def instPorts (c : CompObj) : List Port := c.portRefs.filterMap (fun r => c.cells[r]?)

/-- The `port.set_source_num(0)` sweep over every object referenced by the
port list. -/
def expandCellsZero (c : CompObj) : List Port :=
  c.cells.enum.map (fun jp => if jp.1 ∈ c.portRefs then setSourceNum jp.2 0 else jp.2)

/-- The deep copies contributed by one (possibly unresolvable) referenced
cell. -/
def blockOf : Option Port → List Port
  | some p => portBlock p
  | none => []

/-- The `appendables` list: for each referenced (zeroed) port object, fresh
deep copies at source numbers `1 .. max_number - 1`. -/
def expandAppendCells (c : CompObj) : List Port :=
  c.portRefs.flatMap (fun r => blockOf ((expandCellsZero c)[r]?))

/-- The heap-level expansion: zero the referenced cells, allocate the deep
copies at fresh addresses, and extend the port list with the fresh
references. -/
def expandObj (c : CompObj) : CompObj :=
  ⟨expandCellsZero c ++ expandAppendCells c,
   c.portRefs ++ List.range' (expandCellsZero c).length (expandAppendCells c).length⟩

/-- `port.set_target_comp(v)` through a reference: mutates the one referenced
cell. -/
def setTargetCompRef (c : CompObj) (r : Nat) (v : Option String) : CompObj :=
  match c.cells[r]? with
  | some p => ⟨c.cells.set r (setTargetComp p v), c.portRefs⟩
  | none => c

theorem filter_name_single (ports : List Port) (p₀ : Port)
    (hnd : (ports.map (fun p => p.name)).Nodup) (hmem : p₀ ∈ ports) :
    ports.filter (fun p => p.name == p₀.name) = [p₀] := by
  induction ports with
  | nil => exact absurd hmem (List.not_mem_nil p₀)
  | cons q rest ih =>
      simp only [List.map_cons, List.nodup_cons] at hnd
      rcases List.mem_cons.mp hmem with rfl | hmem
      · rw [List.filter_cons_of_pos (by simp)]
        rw [List.filter_eq_nil_iff.mpr]
        intro r hr
        simp only [beq_iff_eq]
        intro hn
        exact hnd.1 (List.mem_map.mpr ⟨r, hr, hn⟩)
      · rw [List.filter_cons_of_neg, ih hnd.2 hmem]
        simp only [beq_iff_eq]
        intro hn
        exact hnd.1 (List.mem_map.mpr ⟨p₀, hmem, hn.symm⟩)

theorem flatMap_blocks_single (ports : List Port) (p₀ : Port)
    (hnd : (ports.map (fun p => p.name)).Nodup) (hmem : p₀ ∈ ports) :
    (ports.map (fun p => setSourceNum p 0)).flatMap
        (fun z => (portBlock z).filter (fun p => p.name == p₀.name)) =
      portBlock (setSourceNum p₀ 0) := by
  induction ports with
  | nil => exact absurd hmem (List.not_mem_nil p₀)
  | cons q rest ih =>
      simp only [List.map_cons, List.nodup_cons] at hnd
      rw [List.map_cons, List.flatMap_cons]
      rcases List.mem_cons.mp hmem with rfl | hmem
      · have hhead : (portBlock (setSourceNum p₀ 0)).filter (fun p => p.name == p₀.name) =
            portBlock (setSourceNum p₀ 0) := by
          rw [List.filter_eq_self]
          intro a ha
          rcases List.mem_map.mp ha with ⟨i, _, rfl⟩
          simp [setSourceNum]
        have htail : ((rest.map (fun p => setSourceNum p 0)).flatMap
            (fun z => (portBlock z).filter (fun p => p.name == p₀.name))) = [] := by
          rw [List.flatMap_eq_nil_iff]
          intro zs hzs
          rcases List.mem_map.mp hzs with ⟨r, hr, rfl⟩
          rw [List.filter_eq_nil_iff]
          intro a ha
          rcases List.mem_map.mp ha with ⟨i, _, rfl⟩
          simp only [beq_iff_eq]
          intro hn
          exact hnd.1 (List.mem_map.mpr ⟨r, hr, by simpa [setSourceNum] using hn⟩)
        rw [hhead, htail, List.append_nil]
      · have hhead : (portBlock (setSourceNum q 0)).filter (fun p => p.name == p₀.name) =
            [] := by
          rw [List.filter_eq_nil_iff]
          intro a ha
          rcases List.mem_map.mp ha with ⟨i, _, rfl⟩
          simp only [beq_iff_eq]
          intro hn
          refine hnd.1 (List.mem_map.mpr ⟨p₀, hmem, ?_⟩)
          have hq : q.name = p₀.name := by simpa [setSourceNum] using hn
          exact hq.symm
        rw [hhead, List.nil_append]
        exact ih hnd.2 hmem

/-- Part 1 of the expansion property on the port list: with unique port names
and a declared cardinality `m ≥ 1`, the expansion yields for that name exactly
the instances with source numbers `0 .. m-1`, in order. -/
theorem expandPorts_name_range (ports : List Port) (p₀ : Port) (m : Nat)
    (hnd : (ports.map (fun p => p.name)).Nodup) (hmem : p₀ ∈ ports)
    (hmax : p₀.max_number = some m) (hm : 1 ≤ m) :
    ((expandPorts ports).filter (fun p => p.name == p₀.name)).map
      (fun p => p.source_num) = List.range m := by
  unfold expandPorts
  rw [List.filter_append]
  have hzero : (ports.map (fun p => setSourceNum p 0)).filter
      (fun p => p.name == p₀.name) = [setSourceNum p₀ 0] := by
    rw [List.filter_map]
    rw [show ((fun p => p.name == p₀.name) ∘ (fun p => setSourceNum p 0)) =
      (fun p => p.name == p₀.name) from rfl]
    rw [filter_name_single ports p₀ hnd hmem]
    rfl
  rw [List.filter_flatMap, hzero, flatMap_blocks_single ports p₀ hnd hmem]
  have hmaxz : maxNum (setSourceNum p₀ 0) = m := by
    simp [maxNum, setSourceNum, hmax]
  rw [List.map_append]
  unfold portBlock
  rw [List.map_map, hmaxz]
  have hmapnum : (List.range' 1 (m - 1)).map
      ((fun p => p.source_num) ∘ fun i => setSourceNum (setSourceNum p₀ 0) i) =
      List.range' 1 (m - 1) := by
    rw [show ((fun p => p.source_num) ∘ fun i => setSourceNum (setSourceNum p₀ 0) i) =
      id from rfl, List.map_id]
  rw [hmapnum]
  cases m with
  | zero => omega
  | succ k =>
      rw [List.range_eq_range', List.range'_succ]
      simp [setSourceNum]

theorem filterMap_range_getElem (l₂ : List Port) :
    ∀ l₁ : List Port,
      (List.range' l₁.length l₂.length).filterMap (fun r => (l₁ ++ l₂)[r]?) = l₂ := by
  induction l₂ with
  | nil => intro l₁; rfl
  | cons x xs ih =>
      intro l₁
      rw [show (x :: xs).length = xs.length + 1 from rfl, List.range'_succ,
        List.filterMap_cons]
      have hx : (l₁ ++ x :: xs)[l₁.length]? = some x := by
        rw [List.getElem?_append_right (Nat.le_refl _)]
        simp
      rw [hx]
      have hshift : (List.range' (l₁.length + 1) xs.length).filterMap
          (fun r => (l₁ ++ x :: xs)[r]?) = xs := by
        have hres := ih (l₁ ++ [x])
        rw [List.length_append, List.length_cons] at hres
        simpa [List.append_assoc] using hres
      rw [hshift]

theorem expandCellsZero_length (c : CompObj) :
    (expandCellsZero c).length = c.cells.length := by
  simp [expandCellsZero, List.enum_length]

theorem expandCellsZero_getElem (c : CompObj) (r : Nat) (hr : r ∈ c.portRefs) :
    (expandCellsZero c)[r]? = (c.cells[r]?).map (fun p => setSourceNum p 0) := by
  unfold expandCellsZero
  rw [List.getElem?_map, List.getElem?_enum]
  cases c.cells[r]? with
  | none => rfl
  | some p => simp [hr]

theorem flatMap_blockOf {α : Type} (l : List α) (f : α → Option Port) :
    l.flatMap (fun a => blockOf (f a)) = (l.filterMap f).flatMap portBlock := by
  induction l with
  | nil => rfl
  | cons a rest ih =>
      rw [List.flatMap_cons, List.filterMap_cons]
      cases f a with
      | none => simpa [blockOf] using ih
      | some b => rw [List.flatMap_cons, ih]; rfl

theorem filterMap_zeroed (c : CompObj)
    (_hrange : ∀ r ∈ c.portRefs, r < c.cells.length) :
    c.portRefs.filterMap (fun r => (expandCellsZero c)[r]?) =
      (instPorts c).map (fun p => setSourceNum p 0) := by
  unfold instPorts
  rw [List.filterMap_congr (fun r hr => expandCellsZero_getElem c r hr),
    List.map_filterMap]

/-- The heap-level expansion materializes exactly the list-level expansion of
the component's port instances. -/
theorem instPorts_expandObj (c : CompObj)
    (hrange : ∀ r ∈ c.portRefs, r < c.cells.length) :
    instPorts (expandObj c) = expandPorts (instPorts c) := by
  have hcells : instPorts (expandObj c) =
      c.portRefs.filterMap (fun r => (expandCellsZero c ++ expandAppendCells c)[r]?) ++
      (List.range' (expandCellsZero c).length (expandAppendCells c).length).filterMap
        (fun r => (expandCellsZero c ++ expandAppendCells c)[r]?) := by
    unfold instPorts expandObj
    rw [List.filterMap_append]
  rw [hcells]
  have hleft : c.portRefs.filterMap
      (fun r => (expandCellsZero c ++ expandAppendCells c)[r]?) =
      c.portRefs.filterMap (fun r => (expandCellsZero c)[r]?) := by
    refine List.filterMap_congr (fun r hr => ?_)
    rw [List.getElem?_append]
    rw [if_pos (by rw [expandCellsZero_length]; exact hrange r hr)]
  have hright : (List.range' (expandCellsZero c).length
      (expandAppendCells c).length).filterMap
      (fun r => (expandCellsZero c ++ expandAppendCells c)[r]?) = expandAppendCells c :=
    filterMap_range_getElem (expandAppendCells c) (expandCellsZero c)
  rw [hleft, hright, filterMap_zeroed c hrange]
  have happend : expandAppendCells c =
      ((instPorts c).map (fun p => setSourceNum p 0)).flatMap portBlock := by
    unfold expandAppendCells
    rw [flatMap_blockOf c.portRefs (fun r => (expandCellsZero c)[r]?),
      filterMap_zeroed c hrange]
  rw [happend]
  rfl

theorem expandObj_refs_nodup (c : CompObj)
    (hrefs : c.portRefs.Nodup)
    (hrange : ∀ r ∈ c.portRefs, r < c.cells.length) :
    (expandObj c).portRefs.Nodup := by
  unfold expandObj
  simp only
  refine List.Nodup.append hrefs (List.nodup_range' _ _) ?_
  rw [List.disjoint_left]
  intro r hr hr2
  have h2 := (List.mem_range'_1.mp hr2).1
  have hlt := hrange r hr
  rw [expandCellsZero_length] at h2
  omega

theorem deref_setTargetCompRef_ne (c : CompObj) (r r₂ : Nat) (v : Option String)
    (hne : r ≠ r₂) :
    derefPort (setTargetCompRef c r v) r₂ = derefPort c r₂ := by
  unfold setTargetCompRef derefPort
  cases hc : c.cells[r]? with
  | none => rfl
  | some p =>
      simp only
      exact List.getElem?_set_ne hne

/-- **C7.**  Loading a component materializes, for a port name with declared
cardinality `m ≥ 1` (names unique among the declared ports), exactly `m` port
instances with source numbers `0 .. m-1`; and each instance is an independent
deep copy: the expanded port list references pairwise-distinct objects, so
mutating one instance's target reference through its reference leaves every
sibling instance's dereferenced value unchanged. -/
theorem component_port_expansion (c : CompObj) (p₀ : Port) (m : Nat)
    (hrefs : c.portRefs.Nodup)
    (hrange : ∀ r ∈ c.portRefs, r < c.cells.length)
    (hnames : ((instPorts c).map (fun p => p.name)).Nodup)
    (hmem : p₀ ∈ instPorts c) (hmax : p₀.max_number = some m) (hm : 1 ≤ m) :
    (((instPorts (expandObj c)).filter (fun p => p.name == p₀.name)).map
        (fun p => p.source_num) = List.range m) ∧
    (expandObj c).portRefs.Nodup ∧
    (∀ (i j : Fin (expandObj c).portRefs.length) (v : Option String), i ≠ j →
      derefPort (setTargetCompRef (expandObj c) ((expandObj c).portRefs.get i) v)
          ((expandObj c).portRefs.get j) =
        derefPort (expandObj c) ((expandObj c).portRefs.get j)) := by
  refine ⟨?_, expandObj_refs_nodup c hrefs hrange, ?_⟩
  · rw [instPorts_expandObj c hrange]
    exact expandPorts_name_range (instPorts c) p₀ m hnames hmem hmax hm
  · intro i j v hij
    refine deref_setTargetCompRef_ne _ _ _ v (fun he => hij ?_)
    exact ((expandObj_refs_nodup c hrefs hrange).get_inj_iff).mp he

/-- A component object with one declared port `dataIn` of cardinality 3. -/
def expansionExample : CompObj :=
  ⟨[⟨"dataIn", some "T", some "input", 5, some 3, none, none, none, none, none⟩], [0]⟩

/-- **C7 (witness).**  The expansion theorem evaluated on the concrete
component: three instances indexed `0,1,2`, pairwise distinct references, and
mutating instance 0's target leaves instance 1 unchanged. -/
theorem component_port_expansion_witness :
    (((instPorts (expandObj expansionExample)).filter
        (fun p => p.name == (⟨"dataIn", some "T", some "input", 5, some 3,
          none, none, none, none, none⟩ : Port).name)).map
      (fun p => p.source_num) = List.range 3) ∧
    (expandObj expansionExample).portRefs.Nodup ∧
    derefPort (setTargetCompRef (expandObj expansionExample)
        ((expandObj expansionExample).portRefs.get ⟨0, by decide⟩) (some "X"))
        ((expandObj expansionExample).portRefs.get ⟨1, by decide⟩) =
      derefPort (expandObj expansionExample)
        ((expandObj expansionExample).portRefs.get ⟨1, by decide⟩) := by
  have h := component_port_expansion expansionExample
    ⟨"dataIn", some "T", some "input", 5, some 3, none, none, none, none, none⟩ 3
    (by decide) (by decide) (by decide) (by decide) rfl (by decide)
  exact ⟨h.1, h.2.1, h.2.2 ⟨0, by decide⟩ ⟨1, by decide⟩ (some "X") (by decide)⟩

/-- A configured problem filter as homogenized by `fplint/check.py`:
an identifier and the compiled specifier patterns, each modelled as a match
predicate on the problem's standard location string (`re.Pattern.search`). -/
structure ProblemFilter where
  identifier : String
  specifiers : List (String → Bool)

/-- `CheckResult.get_filtered_problems`'s `is_excluded`: some filter has the
problem's identifier and some of its specifiers matches the problem's
location. -/
def isExcluded (filters : List ProblemFilter) (p : Problem) : Bool :=
  filters.any (fun f => f.identifier == p.identifier &&
    f.specifiers.any (fun s => s p.module))

/-- `CheckResult.get_filtered_problems`: the problems surviving the configured
filters. -/
def getFilteredProblems (probs : List Problem) (filters : List ProblemFilter) :
    List Problem :=
  probs.filter (fun p => !isExcluded filters p)

/-- The outcome of one check's `run`: the problems it accumulated, or `none`
when it raised an uncaught exception.  (Checks skipped for missing extra
arguments never enter the loop and are not represented.) -/
abbrev CheckRun := Option (List Problem)

/-- `CheckBase.run_all` of `src/fplint/check.py` (lines 186-210): every check
runs; a raised exception is caught, reported and clears `all_clear`; otherwise
`all_clear &= not problems` on the filtered problems. -/
def runAllChecks (checks : List CheckRun) (filters : List ProblemFilter) : Bool :=
  checks.foldl
    (fun all_clear c =>
      match c with
      | none => false
      | some probs => all_clear && (getFilteredProblems probs filters).isEmpty)
    true

/-- `BaseCheck.run_all` of `src/fplint/checks/check.py` (lines 124-144): the
`return all_clear` sits *inside* the `for` loop and the `except` block
re-raises, so the function returns after the first check (`.ok (some _)`),
propagates the first check's exception (`.error ()`), or returns Python's
implicit `None` when there are no checks (`.ok none`). -/
def runAllBaseCheck (checks : List CheckRun) (filters : List ProblemFilter) :
    Except Unit (Option Bool) :=
  match checks with
  | [] => .ok none
  | c :: _ =>
      match c with
      | none => .error ()
      | some probs => .ok (some ((getFilteredProblems probs filters).isEmpty))

/-- **C3.**  Contrary to the claim, the check engine used by `main.py`
(`BaseCheck.run_all` in `src/fplint/checks/check.py`) re-raises a check's
uncaught exception after reporting it, so the exception propagates out of the
engine and the remaining checks never run — while the engine in
`src/fplint/check.py` (`CheckBase.run_all`) catches, marks the run failed and
continues, as the claim (and `BaseCheck.run_all`'s own docstring "Runs all
known checks") describes.  Evaluated at a failing input of two checks whose
first raises: the `checks/check.py` engine propagates the exception, the
`check.py` engine completes with a failed run. -/
theorem run_all_exception_divergence :
    runAllBaseCheck [none, some []] [] = .error () ∧
    runAllChecks [none, some []] [] = false ∧
    runAllBaseCheck [some [], some []] [] = .ok (some true) :=
  ⟨rfl, rfl, rfl⟩

theorem runAllChecks_foldl (filters : List ProblemFilter) (checks : List CheckRun) :
    ∀ acc : Bool,
      checks.foldl
        (fun all_clear c =>
          match c with
          | none => false
          | some probs => all_clear && (getFilteredProblems probs filters).isEmpty)
        acc =
      (acc && checks.all (fun c =>
        match c with
        | none => false
        | some probs => (getFilteredProblems probs filters).isEmpty)) := by
  induction checks with
  | nil => intro acc; simp
  | cons c rest ih =>
      intro acc
      rw [List.foldl_cons, List.all_cons, ih]
      cases c with
      | none => simp
      | some probs => simp [Bool.and_assoc]

theorem runAllChecks_eq_all (checks : List CheckRun) (filters : List ProblemFilter) :
    runAllChecks checks filters =
      checks.all (fun c =>
        match c with
        | none => false
        | some probs => (getFilteredProblems probs filters).isEmpty) := by
  unfold runAllChecks
  rw [runAllChecks_foldl filters checks true]
  simp

/-- Reassign a problem's severity, leaving identifier, message and location
unchanged. -/
def remapSeverity (f : CheckSeverity → CheckSeverity) (p : Problem) : Problem :=
  ⟨f p.severity, p.identifier, p.message, p.module⟩

theorem getFilteredProblems_remap (probs : List Problem) (filters : List ProblemFilter)
    (f : CheckSeverity → CheckSeverity) :
    getFilteredProblems (probs.map (remapSeverity f)) filters =
      (getFilteredProblems probs filters).map (remapSeverity f) := by
  unfold getFilteredProblems
  rw [List.filter_map]
  rw [show ((fun p => !isExcluded filters p) ∘ remapSeverity f) =
    (fun p => !isExcluded filters p) from rfl]

/-- **C8.**  On a run where no check raises, the overall outcome of
`CheckBase.run_all` is `true` exactly when every executed check's problems all
get dropped by the configured filters — the logical AND over checks of "zero
surviving problems"; and the outcome is invariant under any reassignment of
problem severities, so a surviving Warning fails the run exactly as an Error
does (severity affects only the printed label). -/
theorem run_outcome_characterization (checks : List CheckRun)
    (filters : List ProblemFilter) (hok : ∀ c ∈ checks, c ≠ none) :
    (runAllChecks checks filters = true ↔
      ∀ probs : List Problem, some probs ∈ checks →
        getFilteredProblems probs filters = []) ∧
    (∀ f : CheckSeverity → CheckSeverity,
      runAllChecks (checks.map (Option.map (List.map (remapSeverity f)))) filters =
        runAllChecks checks filters) := by
  constructor
  · rw [runAllChecks_eq_all, List.all_eq_true]
    constructor
    · intro hall probs hmem
      have := hall (some probs) hmem
      simpa [List.isEmpty_iff] using this
    · intro hfilt c hc
      cases c with
      | none => exact absurd rfl (hok none hc)
      | some probs => simpa [List.isEmpty_iff] using hfilt probs hc
  · intro f
    rw [runAllChecks_eq_all, runAllChecks_eq_all, List.all_map]
    have hptwise : ∀ (l : List CheckRun) (pf pg : CheckRun → Bool),
        (∀ c ∈ l, pf c = pg c) → l.all pf = l.all pg := by
      intro l pf pg hpq
      induction l with
      | nil => rfl
      | cons c rest ih =>
          rw [List.all_cons, List.all_cons, hpq c (List.mem_cons_self c rest),
            ih (fun c hc => hpq c (List.mem_cons_of_mem _ hc))]
    refine hptwise checks _ _ (fun c _ => ?_)
    cases c with
    | none => rfl
    | some probs =>
        show (getFilteredProblems (probs.map (remapSeverity f)) filters).isEmpty =
          (getFilteredProblems probs filters).isEmpty
        rw [getFilteredProblems_remap]
        cases getFilteredProblems probs filters <;> rfl

/-- **C8 (witness).**  A single check with one surviving `Warning` problem and
no filters fails the run, by the characterization. -/
theorem run_outcome_witness :
    runAllChecks [some [⟨CheckSeverity.warning, "port-not-connected",
      "is not connected", "Top.A.out:0"⟩]] [] = false := by
  have h := run_outcome_characterization
    [some [⟨CheckSeverity.warning, "port-not-connected", "is not connected",
      "Top.A.out:0"⟩]] [] (by decide)
  rw [Bool.eq_false_iff]
  intro htrue
  have hempty := h.1.mp htrue
    [⟨CheckSeverity.warning, "port-not-connected", "is not connected", "Top.A.out:0"⟩]
    (by simp)
  exact absurd hempty (by decide)

end Checks

namespace Config

/-- A homogenized filter as produced by `src/fplint/config.py`
(`__homogenize_filter`): the identifier and the specifier pattern sources
handed to `re.compile`. -/
structure ConfigFilter where
  identifier : String
  specifiers : List String
deriving DecidableEq, Repr

/-- `__homogenize_filter` of `src/fplint/config.py`: raises
`ConfigurationException` when the identifier is not among the known checks'
identifiers; a falsy (absent or empty) property list defaults to one
match-everything specifier `.*`. -/
def configHomogenizeFilter (idents : List String) (identifier : String)
    (properties : Option (List (Option String))) : Except Unit ConfigFilter :=
  if identifier ∉ idents then .error ()
  else
    let props : List (Option String) :=
      match properties with
      | none => [none]
      | some [] => [none]
      | some ps => ps
    .ok ⟨identifier, props.map (fun p => p.getD ".*")⟩

/-- A homogenized filter as produced by `src/fplint/load.py`. -/
structure LoadFilter where
  identifier : String
  properties : List String
deriving DecidableEq, Repr

/-- `homogenize_filters` of `src/fplint/load.py` — the homogenizer actually
used by `main.py`.  Its source parameter `idents` ("list of valid
identifiers") is never read: contrary to the function's own docstring ("If an
identifier does not exist, it will raise an error"), no validation happens and
the function is total.  Only a `None` property list (not an empty one) is
defaulted. -/
def homogenize_filters (_idents : List String) (identifier : String)
    (properties : Option (List (Option String))) : List LoadFilter :=
  let props : List (Option String) :=
    match properties with
    | none => [none]
    | some ps => ps
  [⟨identifier, props.map (fun p => p.getD ".*")⟩]

/-- **C5.**  Loading a configuration whose `filters` mapping names an unknown
identifier does *not* raise in the homogenizer `main.py` actually uses:
`load.py`'s `homogenize_filters` never consults the known-identifier list and
returns normally on the unknown identifier `bogus-identifier`, while
`config.py`'s `__homogenize_filter` — the intended behaviour the claim (and
`load.py`'s own docstring) describes — raises the fatal configuration
error. -/
theorem unknown_identifier_divergence :
    homogenize_filters ["array-port-collision"] "bogus-identifier" none =
      [⟨"bogus-identifier", [".*"]⟩] ∧
    configHomogenizeFilter ["array-port-collision"] "bogus-identifier" none =
      .error () := by
  constructor
  · rfl
  · rw [configHomogenizeFilter, if_pos (by decide)]

end Config

end Fplint
